import Mathlib

/-!
Verification of the ORCA local collision-avoidance core:
the ORCA math functions (`orca.rs`), the uniform-grid spatial hash
(`spatial_hash.rs`) and the per-tick avoidance orchestrator (`mod.rs`).

The Rust `f32` arithmetic is embedded over the exact reals: every source
function is translated branch-for-branch, with `Real.sqrt` for `f32::sqrt`
and the exact constant `2⁻²³` for `f32::EPSILON`.  Entity identifiers are
embedded as natural numbers.
-/

noncomputable section

/-- A 2D vector over the reals, embedding `bevy::math::Vec2`. -/
structure Vec2 where
  x : ℝ
  y : ℝ

instance : Add Vec2 := ⟨fun a b => ⟨a.x + b.x, a.y + b.y⟩⟩

instance : Sub Vec2 := ⟨fun a b => ⟨a.x - b.x, a.y - b.y⟩⟩

instance : Neg Vec2 := ⟨fun a => ⟨-a.x, -a.y⟩⟩

instance : SMul ℝ Vec2 := ⟨fun r v => ⟨r * v.x, r * v.y⟩⟩

/-- The zero vector (`Vec2::ZERO`). -/
def Vec2.zero : Vec2 := ⟨0, 0⟩

instance : Inhabited Vec2 := ⟨Vec2.zero⟩

/-- Dot product (`Vec2::dot`). -/
def Vec2.dot (a b : Vec2) : ℝ := a.x * b.x + a.y * b.y

/-- Squared length (`Vec2::length_squared`). -/
def Vec2.length_squared (v : Vec2) : ℝ := v.x * v.x + v.y * v.y

/-- Length (`Vec2::length`). -/
def Vec2.length (v : Vec2) : ℝ := Real.sqrt v.length_squared

/-- Normalization (`Vec2::normalize`); only reached in the source under a
guard that makes the length nonzero. -/
def Vec2.normalize (v : Vec2) : Vec2 := (1 / v.length) • v

/-- Normalization that returns zero for the zero vector
(`Vec2::normalize_or_zero`). -/
def Vec2.normalize_or_zero (v : Vec2) : Vec2 :=
  if v.length_squared = 0 then Vec2.zero else v.normalize

/-- Linear interpolation (`Vec2::lerp`): `self + (rhs - self) * s`. -/
def Vec2.lerp (a b : Vec2) (s : ℝ) : Vec2 := a + s • (b - a)

/-- The exact value of `f32::EPSILON`, namely `2⁻²³`. -/
def f32_epsilon : ℝ := 1 / 2 ^ 23

/-- 2D cross product (`det` in `orca.rs`):
`a.x.mul_add(b.y, -(a.y * b.x))`. -/
def det (a b : Vec2) : ℝ := a.x * b.y - a.y * b.x

/-- A half-plane constraint in velocity space (`OrcaLine` in `orca.rs`). -/
structure OrcaLine where
  point : Vec2
  direction : Vec2

instance : Inhabited OrcaLine := ⟨⟨Vec2.zero, Vec2.zero⟩⟩

/-- Snapshot of one agent's state (`AgentSnapshot` in `orca.rs`). -/
structure AgentSnapshot where
  position : Vec2
  velocity : Vec2
  preferred : Vec2
  radius : ℝ
  max_speed : ℝ
  responsibility : ℝ

instance : Inhabited AgentSnapshot :=
  ⟨⟨Vec2.zero, Vec2.zero, Vec2.zero, 0, 0, 0⟩⟩

/-- The ORCA half-plane constraint for agent `a` avoiding agent `b`
(`compute_orca_line` in `orca.rs`), translated branch-for-branch. -/
def compute_orca_line (a b : AgentSnapshot) (time_horizon : ℝ) :
    Option OrcaLine :=
  let rel_pos := b.position - a.position
  let rel_vel := a.velocity - b.velocity
  let combined_radius := a.radius + b.radius
  let dist_sq := rel_pos.length_squared
  let combined_radius_sq := combined_radius * combined_radius
  let inv_time_horizon := 1 / time_horizon
  if dist_sq > combined_radius_sq then
    let w := rel_vel - inv_time_horizon • rel_pos
    let w_length_sq := w.length_squared
    let dot_product_1 := w.dot rel_pos
    if dot_product_1 < 0 ∧
        dot_product_1 * dot_product_1 > combined_radius_sq * w_length_sq then
      let w_length := Real.sqrt w_length_sq
      if w_length < f32_epsilon then
        none
      else
        let unit_w := (1 / w_length) • w
        let direction := Vec2.mk unit_w.y (-unit_w.x)
        let u := (combined_radius * inv_time_horizon - w_length) • unit_w
        some ⟨a.velocity + a.responsibility • u, direction⟩
    else
      let leg := Real.sqrt (dist_sq - combined_radius_sq)
      if det rel_pos w > 0 then
        let direction := (1 / dist_sq) •
          Vec2.mk (rel_pos.x * leg - rel_pos.y * combined_radius)
            (rel_pos.x * combined_radius + rel_pos.y * leg)
        let dot_product_2 := rel_vel.dot direction
        let u := dot_product_2 • direction - rel_vel
        some ⟨a.velocity + a.responsibility • u, direction⟩
      else
        let direction := -((1 / dist_sq) •
          Vec2.mk (rel_pos.x * leg + rel_pos.y * combined_radius)
            (-rel_pos.x * combined_radius + rel_pos.y * leg))
        let dot_product_2 := rel_vel.dot direction
        let u := dot_product_2 • direction - rel_vel
        some ⟨a.velocity + a.responsibility • u, direction⟩
  else
    none

/-- The prior-constraint clipping loop inside `linear_program_1`:
clips the parameter interval `[t_left, t_right]` against each prior line,
returning `none` on infeasibility. -/
def clip_priors (line_direction line_point : Vec2) :
    List OrcaLine → ℝ → ℝ → Option (ℝ × ℝ)
  | [], t_left, t_right => some (t_left, t_right)
  | prior :: rest, t_left, t_right =>
    let denominator := det line_direction prior.direction
    let numerator := det prior.direction (line_point - prior.point)
    if |denominator| ≤ f32_epsilon then
      if numerator < 0 then none
      else clip_priors line_direction line_point rest t_left t_right
    else
      let t := numerator / denominator
      let t_left2 := if denominator ≥ 0 then t_left else max t_left t
      let t_right2 := if denominator ≥ 0 then min t_right t else t_right
      if t_left2 > t_right2 then none
      else clip_priors line_direction line_point rest t_left2 t_right2

/-- 1D optimization along constraint line `line_idx`
(`linear_program_1` in `orca.rs`). -/
def linear_program_1 (lines : List OrcaLine) (line_idx : ℕ)
    (opt_velocity : Vec2) (max_speed : ℝ) (direction_opt : Bool) :
    Option Vec2 :=
  let line := lines.getD line_idx default
  let dot_product := line.point.dot line.direction
  let discriminant :=
    dot_product * dot_product +
      (max_speed * max_speed - line.point.length_squared)
  if discriminant < 0 then
    none
  else
    let sqrt_discriminant := Real.sqrt discriminant
    match clip_priors line.direction line.point (lines.take line_idx)
        (-dot_product - sqrt_discriminant) (-dot_product + sqrt_discriminant)
      with
    | none => none
    | some (t_left, t_right) =>
      let t_opt :=
        if direction_opt then line.direction.dot opt_velocity
        else line.direction.dot (opt_velocity - line.point)
      let t := min (max t_opt t_left) t_right
      some (line.point + t • line.direction)

/-- The constraint-processing loop of `linear_program_2_impl`: walks the
suffix of `lines` starting at index `i`, re-optimizing along each violated
constraint.  Returns `(result, fail_index)`; `fail_index = lines.length`
means success. -/
def lp2_loop (lines : List OrcaLine) (opt_velocity : Vec2) (max_speed : ℝ)
    (direction_opt : Bool) : List OrcaLine → ℕ → Vec2 → Vec2 × ℕ
  | [], _, result => (result, lines.length)
  | line :: rest, i, result =>
    if det line.direction (line.point - result) > 0 then
      match linear_program_1 lines i opt_velocity max_speed direction_opt with
      | some new_result =>
        lp2_loop lines opt_velocity max_speed direction_opt rest (i + 1)
          new_result
      | none => (result, i)
    else
      lp2_loop lines opt_velocity max_speed direction_opt rest (i + 1) result

/-- Inner 2D incremental LP with `direction_opt` flag
(`linear_program_2_impl` in `orca.rs`). -/
def linear_program_2_impl (lines : List OrcaLine) (opt_velocity : Vec2)
    (max_speed : ℝ) (direction_opt : Bool) : Vec2 × ℕ :=
  let result :=
    if direction_opt then
      max_speed • opt_velocity.normalize_or_zero
    else if opt_velocity.length_squared > max_speed * max_speed then
      max_speed • opt_velocity.normalize
    else
      opt_velocity
  lp2_loop lines opt_velocity max_speed direction_opt lines 0 result

/-- 2D incremental linear program (`linear_program_2` in `orca.rs`). -/
def linear_program_2 (lines : List OrcaLine) (opt_velocity : Vec2)
    (max_speed : ℝ) : Vec2 × ℕ :=
  linear_program_2_impl lines opt_velocity max_speed false

/-- Projection of prior line `line_j` onto the sub-problem for `line_i`
inside `linear_program_3`; `none` when the prior is redundant. -/
def project_line (line_i line_j : OrcaLine) : Option OrcaLine :=
  let determinant := det line_i.direction line_j.direction
  if |determinant| ≤ f32_epsilon then
    if line_i.direction.dot line_j.direction > 0 then
      none
    else
      some ⟨(1 / 2 : ℝ) • (line_i.point + line_j.point),
        (line_j.direction - line_i.direction).normalize_or_zero⟩
  else
    some ⟨line_i.point +
      (det line_j.direction (line_i.point - line_j.point) / determinant) •
        line_i.direction,
      (line_j.direction - line_i.direction).normalize_or_zero⟩

/-- The outer loop of `linear_program_3`: walks the suffix of `lines`
starting at index `i`, carrying the current `result` and worst violation
`distance`. -/
def lp3_loop (lines : List OrcaLine) (max_speed : ℝ) :
    List OrcaLine → ℕ → Vec2 → ℝ → Vec2
  | [], _, result, _ => result
  | line_i :: rest, i, result, distance =>
    if det line_i.direction (line_i.point - result) ≤ distance then
      lp3_loop lines max_speed rest (i + 1) result distance
    else
      let projected_lines := (lines.take i).filterMap (project_line line_i)
      let opt_direction := Vec2.mk (-line_i.direction.y) line_i.direction.x
      let new_result :=
        (linear_program_2_impl projected_lines opt_direction max_speed
          true).1
      let result2 :=
        if det line_i.direction (line_i.point - new_result) > distance then
          new_result
        else result
      let distance2 := det line_i.direction (line_i.point - result2)
      lp3_loop lines max_speed rest (i + 1) result2 distance2

/-- Infeasibility fallback (`linear_program_3` in `orca.rs`). -/
def linear_program_3 (lines : List OrcaLine) (fail_line : ℕ) (current : Vec2)
    (max_speed : ℝ) : Vec2 :=
  lp3_loop lines max_speed (lines.drop fail_line) fail_line current 0

/-- Best collision-free velocity (`compute_avoiding_velocity` in
`orca.rs`). -/
def compute_avoiding_velocity (preferred : Vec2) (max_speed : ℝ)
    (lines : List OrcaLine) : Vec2 :=
  let rf := linear_program_2 lines preferred max_speed
  if rf.2 < lines.length then linear_program_3 lines rf.2 rf.1 max_speed
  else rf.1

/-- Uniform-grid spatial hash (`SpatialHash` in `spatial_hash.rs`).
The cell map is embedded as a function from integer cell coordinates to
the bucket contents. -/
structure SpatialHash where
  cell_size : ℝ
  cells : ℤ × ℤ → List ℕ

/-- Constructor (`SpatialHash::new`). -/
def SpatialHash.new (cell_size : ℝ) : SpatialHash :=
  ⟨cell_size, fun _ => []⟩

/-- Empty every bucket (`SpatialHash::clear`). -/
def SpatialHash.clear (h : SpatialHash) : SpatialHash :=
  ⟨h.cell_size, fun _ => []⟩

/-- Integer cell coordinates of a position (`SpatialHash::cell_coords`):
`floor(position / cell_size)` componentwise. -/
def SpatialHash.cell_coords (h : SpatialHash) (position : Vec2) : ℤ × ℤ :=
  (⌊position.x / h.cell_size⌋, ⌊position.y / h.cell_size⌋)

/-- Insert an entity at a world position (`SpatialHash::insert`). -/
def SpatialHash.insert (h : SpatialHash) (ent : ℕ) (position : Vec2) :
    SpatialHash :=
  ⟨h.cell_size, fun c =>
    if c = h.cell_coords position then h.cells c ++ [ent] else h.cells c⟩

/-- The inclusive integer range `lo..=hi` as a list. -/
def int_range (lo hi : ℤ) : List ℤ :=
  (List.range (hi + 1 - lo).toNat).map fun (k : ℕ) => lo + (k : ℤ)

/-- Query all candidate entities for a disc (`SpatialHash::query_neighbors`):
unions every bucket in the cell range covering the axis-aligned square
`[position - radius, position + radius]`, with no distance filtering. -/
def SpatialHash.query_neighbors (h : SpatialHash) (position : Vec2)
    (radius : ℝ) : List ℕ :=
  let mn := h.cell_coords (position - Vec2.mk radius radius)
  let mx := h.cell_coords (position + Vec2.mk radius radius)
  (int_range mn.1 mx.1).flatMap fun cx =>
    (int_range mn.2 mx.2).flatMap fun cy => h.cells (cx, cy)

/-- Global ORCA tuning parameters (`AvoidanceConfig` in `mod.rs`). -/
structure AvoidanceConfig where
  time_horizon : ℝ
  max_neighbors : ℕ
  neighbor_distance : ℝ
  velocity_smoothing : ℝ

/-- Rebuild of the spatial hash from entity positions
(`rebuild_spatial_hash` in `mod.rs`): `clear` followed by one `insert`
per unit. -/
def rebuild_spatial_hash (h : SpatialHash) (units : List (ℕ × Vec2)) :
    SpatialHash :=
  units.foldl (fun acc u => acc.insert u.1 u.2) h.clear

/-- The candidate loop of `compute_avoidance` (mod.rs:153-169): skips the
agent itself, stops once `max_neighbors` constraints were built, resolves
each candidate through the entity-to-snapshot index, and skips candidates
for which `compute_orca_line` returns `None`. -/
def build_lines_loop (config : AvoidanceConfig)
    (snapshots : List (ℕ × AgentSnapshot)) (entity : ℕ)
    (agent : AgentSnapshot) : List ℕ → ℕ → List OrcaLine
  | [], _ => []
  | c :: rest, neighbor_count =>
    if c = entity then
      build_lines_loop config snapshots entity agent rest neighbor_count
    else if neighbor_count ≥ config.max_neighbors then
      []
    else
      match snapshots.find? fun s => s.1 == c with
      | some s =>
        match compute_orca_line agent s.2 config.time_horizon with
        | some line =>
          line ::
            build_lines_loop config snapshots entity agent rest
              (neighbor_count + 1)
        | none =>
          build_lines_loop config snapshots entity agent rest neighbor_count
      | none =>
        build_lines_loop config snapshots entity agent rest neighbor_count

/-- The per-agent solve inside `compute_avoidance` (mod.rs:142-181):
short-circuit for near-zero preferred velocity, neighbor query, constraint
construction, LP solve and temporal smoothing. -/
def solve_agent (config : AvoidanceConfig) (hash : SpatialHash)
    (snapshots : List (ℕ × AgentSnapshot)) (entity : ℕ)
    (agent : AgentSnapshot) : Vec2 :=
  if agent.preferred.length_squared < f32_epsilon then
    Vec2.zero
  else
    let candidates :=
      hash.query_neighbors agent.position config.neighbor_distance
    let lines := build_lines_loop config snapshots entity agent candidates 0
    if lines.isEmpty then
      agent.preferred
    else
      let orca_vel :=
        compute_avoiding_velocity agent.preferred agent.max_speed lines
      agent.velocity.lerp orca_vel config.velocity_smoothing

/-- Per-tick orchestrator (`compute_avoidance` in `mod.rs`): one solved
velocity per snapshotted agent, written back in a separate pass.  The
write-back is embedded as the returned association list. -/
def compute_avoidance (config : AvoidanceConfig) (hash : SpatialHash)
    (snapshots : List (ℕ × AgentSnapshot)) : List (ℕ × Vec2) :=
  snapshots.map fun s => (s.1, solve_agent config hash snapshots s.1 s.2)

end

noncomputable section

/-- Concrete configuration mirroring the source defaults
(`time_horizon = 3`, `max_neighbors = 10`, `neighbor_distance = 150`,
`velocity_smoothing = 0.85`). -/
def config_w : AvoidanceConfig := ⟨3, 10, 150, 17 / 20⟩

/-- A stationary agent at the origin with zero preferred velocity. -/
def agent_stationary : AgentSnapshot :=
  ⟨⟨0, 0⟩, ⟨0, 0⟩, ⟨0, 0⟩, 6, 50, 1 / 2⟩

/-- An agent at `(20, 0)` heading straight at the origin at speed 50. -/
def agent_oncoming : AgentSnapshot :=
  ⟨⟨20, 0⟩, ⟨-50, 0⟩, ⟨-50, 0⟩, 6, 50, 1 / 2⟩

/-- The ORCA line produced for `agent_stationary` against
`agent_oncoming` with time horizon 3. -/
def line_ab : OrcaLine := ⟨⟨-9, -12⟩, ⟨-(4 / 5), 3 / 5⟩⟩

/-- The spatial hash rebuilt from the two-agent scenario. -/
def hash_w : SpatialHash :=
  rebuild_spatial_hash (SpatialHash.new 150) [(0, ⟨0, 0⟩), (1, ⟨20, 0⟩)]

/-- An empty spatial hash with the default cell size. -/
def hash_empty : SpatialHash := SpatialHash.new 150

/-- A lone agent whose preferred velocity `(100, 0)` exceeds its
`max_speed` of 50. -/
def agent_overspeed : AgentSnapshot :=
  ⟨⟨0, 0⟩, ⟨0, 0⟩, ⟨100, 0⟩, 6, 50, 1 / 2⟩

/-- An agent with a tiny (but nonzero) preferred velocity `(10⁻⁴, 0)`,
whose squared length is below `f32::EPSILON`. -/
def agent_tiny : AgentSnapshot :=
  ⟨⟨0, 0⟩, ⟨0, 0⟩, ⟨1 / 10000, 0⟩, 6, 50, 1 / 2⟩

/-- A well-behaved lone agent: preferred and current velocity `(50, 0)`,
`max_speed` 50. -/
def agent_w : AgentSnapshot :=
  ⟨⟨0, 0⟩, ⟨50, 0⟩, ⟨50, 0⟩, 6, 50, 1 / 2⟩

/-- An agent overlapping `agent_stationary`: centers 5 apart, combined
radius 12. -/
def agent_overlap : AgentSnapshot :=
  ⟨⟨5, 0⟩, ⟨0, 0⟩, ⟨0, 0⟩, 6, 50, 1 / 2⟩

/-- Two directly contradictory half-planes: the first requires `x ≥ 20`,
the second requires `x ≤ -20`. -/
def lines_contradictory : List OrcaLine :=
  [⟨⟨20, 0⟩, ⟨0, -1⟩⟩, ⟨⟨-20, 0⟩, ⟨0, 1⟩⟩]

/-- A single half-plane forbidding rightward velocities beyond `x = 10`. -/
def line_block_right : OrcaLine := ⟨⟨10, 0⟩, ⟨0, 1⟩⟩

end

noncomputable section

/-- Division instrumented to fail on a zero denominator.  Used by the
checked variants below, which mirror the LP2→LP3 pipeline but return
`none` whenever a division-by-zero would be reached, so that totality of
the pipeline's division guards can be stated as a theorem. -/
def checked_div (a b : ℝ) : Option ℝ :=
  if b = 0 then none else some (a / b)

/-- Normalization instrumented to fail on a zero-length vector. -/
def Vec2.normalize_checked (v : Vec2) : Option Vec2 :=
  if v.length = 0 then none else some v.normalize

/-- Checked variant of `clip_priors`: the outer `none` means a
division-by-zero was reached, the inner `none` means infeasible. -/
def clip_priors_checked (line_direction line_point : Vec2) :
    List OrcaLine → ℝ → ℝ → Option (Option (ℝ × ℝ))
  | [], t_left, t_right => some (some (t_left, t_right))
  | prior :: rest, t_left, t_right =>
    let denominator := det line_direction prior.direction
    let numerator := det prior.direction (line_point - prior.point)
    if |denominator| ≤ f32_epsilon then
      if numerator < 0 then some none
      else clip_priors_checked line_direction line_point rest t_left t_right
    else
      match checked_div numerator denominator with
      | none => none
      | some t =>
        let t_left2 := if denominator ≥ 0 then t_left else max t_left t
        let t_right2 := if denominator ≥ 0 then min t_right t else t_right
        if t_left2 > t_right2 then some none
        else
          clip_priors_checked line_direction line_point rest t_left2
            t_right2

/-- Checked variant of `linear_program_1`. -/
def linear_program_1_checked (lines : List OrcaLine) (line_idx : ℕ)
    (opt_velocity : Vec2) (max_speed : ℝ) (direction_opt : Bool) :
    Option (Option Vec2) :=
  let line := lines.getD line_idx default
  let dot_product := line.point.dot line.direction
  let discriminant :=
    dot_product * dot_product +
      (max_speed * max_speed - line.point.length_squared)
  if discriminant < 0 then
    some none
  else
    let sqrt_discriminant := Real.sqrt discriminant
    match clip_priors_checked line.direction line.point
        (lines.take line_idx) (-dot_product - sqrt_discriminant)
        (-dot_product + sqrt_discriminant) with
    | none => none
    | some none => some none
    | some (some (t_left, t_right)) =>
      let t_opt :=
        if direction_opt then line.direction.dot opt_velocity
        else line.direction.dot (opt_velocity - line.point)
      let t := min (max t_opt t_left) t_right
      some (some (line.point + t • line.direction))

/-- Checked variant of `lp2_loop`. -/
def lp2_loop_checked (lines : List OrcaLine) (opt_velocity : Vec2)
    (max_speed : ℝ) (direction_opt : Bool) :
    List OrcaLine → ℕ → Vec2 → Option (Vec2 × ℕ)
  | [], _, result => some (result, lines.length)
  | line :: rest, i, result =>
    if det line.direction (line.point - result) > 0 then
      match linear_program_1_checked lines i opt_velocity max_speed
          direction_opt with
      | none => none
      | some (some new_result) =>
        lp2_loop_checked lines opt_velocity max_speed direction_opt rest
          (i + 1) new_result
      | some none => some (result, i)
    else
      lp2_loop_checked lines opt_velocity max_speed direction_opt rest
        (i + 1) result

/-- Checked variant of `linear_program_2_impl`. -/
def linear_program_2_impl_checked (lines : List OrcaLine)
    (opt_velocity : Vec2) (max_speed : ℝ) (direction_opt : Bool) :
    Option (Vec2 × ℕ) :=
  let seed :=
    if direction_opt then
      some (max_speed • opt_velocity.normalize_or_zero)
    else if opt_velocity.length_squared > max_speed * max_speed then
      Option.map (fun u => max_speed • u) opt_velocity.normalize_checked
    else
      some opt_velocity
  match seed with
  | none => none
  | some result =>
    lp2_loop_checked lines opt_velocity max_speed direction_opt lines 0
      result

/-- Checked variant of `project_line`. -/
def project_line_checked (line_i line_j : OrcaLine) :
    Option (Option OrcaLine) :=
  let determinant := det line_i.direction line_j.direction
  if |determinant| ≤ f32_epsilon then
    if line_i.direction.dot line_j.direction > 0 then
      some none
    else
      some (some ⟨(1 / 2 : ℝ) • (line_i.point + line_j.point),
        (line_j.direction - line_i.direction).normalize_or_zero⟩)
  else
    match checked_div (det line_j.direction (line_i.point - line_j.point))
        determinant with
    | none => none
    | some q =>
      some (some ⟨line_i.point + q • line_i.direction,
        (line_j.direction - line_i.direction).normalize_or_zero⟩)

/-- Checked variant of the projection loop of `linear_program_3`. -/
def project_all_checked (line_i : OrcaLine) :
    List OrcaLine → Option (List OrcaLine)
  | [] => some []
  | line_j :: rest =>
    match project_line_checked line_i line_j with
    | none => none
    | some none => project_all_checked line_i rest
    | some (some pl) =>
      Option.map (fun t => pl :: t) (project_all_checked line_i rest)

/-- Checked variant of `lp3_loop`. -/
def lp3_loop_checked (lines : List OrcaLine) (max_speed : ℝ) :
    List OrcaLine → ℕ → Vec2 → ℝ → Option Vec2
  | [], _, result, _ => some result
  | line_i :: rest, i, result, distance =>
    if det line_i.direction (line_i.point - result) ≤ distance then
      lp3_loop_checked lines max_speed rest (i + 1) result distance
    else
      match project_all_checked line_i (lines.take i) with
      | none => none
      | some projected_lines =>
        let opt_direction := Vec2.mk (-line_i.direction.y)
          line_i.direction.x
        match linear_program_2_impl_checked projected_lines opt_direction
            max_speed true with
        | none => none
        | some nr =>
          let result2 :=
            if det line_i.direction (line_i.point - nr.1) > distance then
              nr.1
            else result
          let distance2 := det line_i.direction (line_i.point - result2)
          lp3_loop_checked lines max_speed rest (i + 1) result2 distance2

/-- Checked variant of the full LP2→LP3 pipeline: `none` iff some internal
division-by-zero branch would have been reached. -/
def compute_avoiding_velocity_checked (preferred : Vec2) (max_speed : ℝ)
    (lines : List OrcaLine) : Option Vec2 :=
  match linear_program_2_impl_checked lines preferred max_speed false with
  | none => none
  | some rf =>
    if rf.2 < lines.length then
      lp3_loop_checked lines max_speed (lines.drop rf.2) rf.2 rf.1 0
    else
      some rf.1

end

@[simp] theorem Vec2.add_x (a b : Vec2) : (a + b).x = a.x + b.x := rfl

@[simp] theorem Vec2.add_y (a b : Vec2) : (a + b).y = a.y + b.y := rfl

@[simp] theorem Vec2.sub_x (a b : Vec2) : (a - b).x = a.x - b.x := rfl

@[simp] theorem Vec2.sub_y (a b : Vec2) : (a - b).y = a.y - b.y := rfl

@[simp] theorem Vec2.neg_x (a : Vec2) : (-a).x = -a.x := rfl

@[simp] theorem Vec2.neg_y (a : Vec2) : (-a).y = -a.y := rfl

@[simp] theorem Vec2.smul_x (r : ℝ) (a : Vec2) : (r • a).x = r * a.x := rfl

@[simp] theorem Vec2.smul_y (r : ℝ) (a : Vec2) : (r • a).y = r * a.y := rfl

@[simp] theorem Vec2.zero_x : Vec2.zero.x = 0 := rfl

@[simp] theorem Vec2.zero_y : Vec2.zero.y = 0 := rfl

theorem Vec2.length_squared_nonneg (v : Vec2) : 0 ≤ v.length_squared := by
  have hx := mul_self_nonneg v.x
  have hy := mul_self_nonneg v.y
  unfold Vec2.length_squared
  linarith

theorem Vec2.length_nonneg (v : Vec2) : 0 ≤ v.length :=
  Real.sqrt_nonneg _

theorem Vec2.mul_self_length (v : Vec2) :
    v.length * v.length = v.length_squared :=
  Real.mul_self_sqrt v.length_squared_nonneg

theorem sqrt_le_of_sq_le {a b : ℝ} (hb : 0 ≤ b) (h : a ≤ b * b) :
    Real.sqrt a ≤ b := by
  calc Real.sqrt a ≤ Real.sqrt (b * b) := Real.sqrt_le_sqrt h
    _ = b := Real.sqrt_mul_self hb

theorem sqrt_eq_of_sq {a b : ℝ} (hb : 0 ≤ b) (h : b * b = a) :
    Real.sqrt a = b := by
  rw [← h]; exact Real.sqrt_mul_self hb

theorem Vec2.length_le_of_sq_le {v : Vec2} {m : ℝ} (hm : 0 ≤ m)
    (h : v.length_squared ≤ m * m) : v.length ≤ m :=
  sqrt_le_of_sq_le hm h

theorem Vec2.length_squared_le_of_length_le {v : Vec2} {m : ℝ}
    (h : v.length ≤ m) : v.length_squared ≤ m * m := by
  have h0 := v.length_nonneg
  have := v.mul_self_length
  nlinarith

theorem Vec2.length_squared_add_smul (p d : Vec2) (t : ℝ) :
    (p + t • d).length_squared =
      p.length_squared + 2 * t * p.dot d + t * t * d.length_squared := by
  simp [Vec2.length_squared, Vec2.dot]
  ring

theorem Vec2.length_squared_smul (r : ℝ) (v : Vec2) :
    (r • v).length_squared = r * r * v.length_squared := by
  simp [Vec2.length_squared]
  ring

theorem Vec2.length_squared_eq_zero_iff (v : Vec2) :
    v.length_squared = 0 ↔ v = Vec2.zero := by
  constructor
  · intro h
    have hx := mul_self_nonneg v.x
    have hy := mul_self_nonneg v.y
    unfold Vec2.length_squared at h
    have hx0 : v.x = 0 := by nlinarith
    have hy0 : v.y = 0 := by nlinarith
    cases v
    simp_all [Vec2.zero]
  · intro h
    simp [h, Vec2.length_squared, Vec2.zero]

theorem Vec2.length_squared_normalize {v : Vec2}
    (h : v.length_squared ≠ 0) : v.normalize.length_squared = 1 := by
  have h0 : 0 < v.length_squared :=
    lt_of_le_of_ne v.length_squared_nonneg (Ne.symm h)
  have hl : 0 < v.length := Real.sqrt_pos.2 h0
  rw [Vec2.normalize, Vec2.length_squared_smul]
  have hm := v.mul_self_length
  field_simp
  nlinarith

theorem Vec2.length_squared_normalize_or_zero_le (v : Vec2) :
    v.normalize_or_zero.length_squared ≤ 1 := by
  unfold Vec2.normalize_or_zero
  split
  · simp [Vec2.length_squared, Vec2.zero]
  · rw [Vec2.length_squared_normalize (by assumption)]

theorem clip_priors_bounds (d p : Vec2) :
    ∀ (priors : List OrcaLine) (tl tr tl2 tr2 : ℝ),
      clip_priors d p priors tl tr = some (tl2, tr2) → tl ≤ tr →
      tl ≤ tl2 ∧ tr2 ≤ tr ∧ tl2 ≤ tr2 := by
  intro priors
  induction priors with
  | nil =>
    intro tl tr tl2 tr2 h hle
    simp only [clip_priors, Option.some.injEq, Prod.mk.injEq] at h
    obtain ⟨h1, h2⟩ := h
    subst h1
    subst h2
    exact ⟨le_refl _, le_refl _, hle⟩
  | cons prior rest ih =>
    intro tl tr tl2 tr2 h hle
    simp only [clip_priors] at h
    by_cases hpar : |det d prior.direction| ≤ f32_epsilon
    · rw [if_pos hpar] at h
      by_cases hnum : det prior.direction (p - prior.point) < 0
      · rw [if_pos hnum] at h
        exact absurd h (by simp)
      · rw [if_neg hnum] at h
        exact ih tl tr tl2 tr2 h hle
    · rw [if_neg hpar] at h
      set t := det prior.direction (p - prior.point) / det d prior.direction
        with ht
      set tl1 := if det d prior.direction ≥ 0 then tl else max tl t with htl1
      set tr1 := if det d prior.direction ≥ 0 then min tr t else tr with htr1
      by_cases hord : tl1 > tr1
      · rw [if_pos hord] at h
        exact absurd h (by simp)
      · rw [if_neg hord] at h
        obtain ⟨h1, h2, h3⟩ := ih tl1 tr1 tl2 tr2 h (not_lt.1 hord)
        have htl : tl ≤ tl1 := by
          rw [htl1]; split
          · exact le_refl tl
          · exact le_max_left tl t
        have htr : tr1 ≤ tr := by
          rw [htr1]; split
          · exact min_le_left tr t
          · exact le_refl tr
        exact ⟨le_trans htl h1, le_trans h2 htr, h3⟩

theorem linear_program_1_in_disc (lines : List OrcaLine) (i : ℕ)
    (optv : Vec2) (ms : ℝ) (dopt : Bool) (v : Vec2)
    (hunit : (lines.getD i default).direction.length_squared = 1)
    (h : linear_program_1 lines i optv ms dopt = some v) :
    v.length_squared ≤ ms * ms := by
  simp only [linear_program_1] at h
  split at h
  · exact absurd h (by simp)
  · next hd =>
    split at h
    · exact absurd h (by simp)
    · next tl tr hclip =>
      simp only [Option.some.injEq] at h
      set line := lines.getD i default with hline
      set dp := line.point.dot line.direction with hdp
      set disc := dp * dp + (ms * ms - line.point.length_squared) with hdisc
      set s := Real.sqrt disc with hs
      have hs0 : 0 ≤ s := Real.sqrt_nonneg _
      have hss : s * s = disc := Real.mul_self_sqrt (not_lt.1 hd)
      obtain ⟨h1, h2, h3⟩ :=
        clip_priors_bounds line.direction line.point (lines.take i)
          (-dp - s) (-dp + s) tl tr hclip (by linarith)
      set topt := if dopt = true then line.direction.dot optv
        else line.direction.dot (optv - line.point) with htopt
      have ht1 : tl ≤ max topt tl ⊓ tr := le_min (le_max_right _ _) h3
      have ht2 : max topt tl ⊓ tr ≤ tr := min_le_right _ _
      set tt := max topt tl ⊓ tr with htt
      have hlo : -dp - s ≤ tt := le_trans h1 ht1
      have hhi : tt ≤ -dp + s := le_trans ht2 h2
      rw [← h, Vec2.length_squared_add_smul, hunit]
      have hkey : (tt + dp) * (tt + dp) ≤ s * s := by nlinarith
      nlinarith

theorem drop_cons_facts :
    ∀ (lines rest : List OrcaLine) (line : OrcaLine) (i : ℕ),
      lines.drop i = line :: rest →
      lines.getD i default = line ∧ lines.drop (i + 1) = rest ∧
        line ∈ lines := by
  intro lines
  induction lines with
  | nil => intro rest line i h; simp at h
  | cons a l ih =>
    intro rest line i h
    cases i with
    | zero =>
      simp only [List.drop_zero] at h
      cases h
      exact ⟨rfl, rfl, List.mem_cons_self a l⟩
    | succ j =>
      have h2 : l.drop j = line :: rest := h
      obtain ⟨hg, hd, hm⟩ := ih rest line j h2
      exact ⟨hg, hd, List.mem_cons_of_mem a hm⟩

theorem lp2_loop_in_disc (lines : List OrcaLine) (optv : Vec2) (ms : ℝ)
    (dopt : Bool)
    (hall : ∀ l ∈ lines, l.direction.length_squared = 1) :
    ∀ (suffix : List OrcaLine) (i : ℕ) (result : Vec2),
      lines.drop i = suffix → result.length_squared ≤ ms * ms →
      ((lp2_loop lines optv ms dopt suffix i result).1).length_squared ≤
        ms * ms := by
  intro suffix
  induction suffix with
  | nil =>
    intro i result _ hres
    simpa [lp2_loop] using hres
  | cons line rest ih =>
    intro i result hdrop hres
    obtain ⟨hget, hdrop2, hmem⟩ := drop_cons_facts lines rest line i hdrop
    simp only [lp2_loop]
    split
    · rcases hlp : linear_program_1 lines i optv ms dopt with _ | nr
      · simpa [hlp] using hres
      · simp only [hlp]
        refine ih (i + 1) nr hdrop2 ?_
        refine linear_program_1_in_disc lines i optv ms dopt nr ?_ hlp
        rw [hget]
        exact hall line hmem
    · exact ih (i + 1) result hdrop2 hres

theorem lp2_impl_in_disc (lines : List OrcaLine) (optv : Vec2) (ms : ℝ)
    (dopt : Bool)
    (hall : ∀ l ∈ lines, l.direction.length_squared = 1) :
    ((linear_program_2_impl lines optv ms dopt).1).length_squared ≤
      ms * ms := by
  unfold linear_program_2_impl
  refine lp2_loop_in_disc lines optv ms dopt hall lines 0 _
    (List.drop_zero lines) ?_
  have hms2 : 0 ≤ ms * ms := mul_self_nonneg ms
  split
  · rw [Vec2.length_squared_smul]
    have := optv.length_squared_normalize_or_zero_le
    nlinarith
  · split
    · next hgt =>
      rw [Vec2.length_squared_smul]
      have h0 : optv.length_squared ≠ 0 := by
        have := optv.length_squared_nonneg
        intro hz
        rw [hz] at hgt
        exact absurd hgt (by nlinarith)
      rw [Vec2.length_squared_normalize h0]
      nlinarith
    · next hle => exact le_of_not_lt (fun hc => hle (by linarith))

theorem Vec2.ext_xy {a b : Vec2} (hx : a.x = b.x) (hy : a.y = b.y) :
    a = b := by
  cases a
  cases b
  simp_all

theorem Vec2.sub_eq_zero_iff (a b : Vec2) : a - b = Vec2.zero ↔ a = b := by
  constructor
  · intro h
    have hx := congrArg Vec2.x h
    have hy := congrArg Vec2.y h
    simp at hx hy
    exact Vec2.ext_xy (by linarith) (by linarith)
  · intro h
    subst h
    exact Vec2.ext_xy (by simp) (by simp)

theorem det_self (d : Vec2) : det d d = 0 := by
  unfold det
  ring

theorem f32_epsilon_pos : 0 < f32_epsilon := by
  unfold f32_epsilon
  norm_num

theorem Vec2.length_squared_normalize_or_zero_of_ne {v : Vec2}
    (h : v.length_squared ≠ 0) :
    v.normalize_or_zero.length_squared = 1 := by
  rw [Vec2.normalize_or_zero, if_neg h]
  exact Vec2.length_squared_normalize h

theorem project_line_unit {li lj pl : OrcaLine}
    (hi : li.direction.length_squared = 1)
    (_hj : lj.direction.length_squared = 1)
    (h : project_line li lj = some pl) :
    pl.direction.length_squared = 1 := by
  have hne : lj.direction ≠ li.direction →
      (lj.direction - li.direction).length_squared ≠ 0 := by
    intro hne hz
    exact hne ((Vec2.sub_eq_zero_iff _ _).1
      ((lj.direction - li.direction).length_squared_eq_zero_iff.1 hz))
  simp only [project_line] at h
  split at h
  · split at h
    · exact absurd h (by simp)
    · next hdot =>
      simp only [Option.some.injEq] at h
      rw [← h]
      refine Vec2.length_squared_normalize_or_zero_of_ne (hne ?_)
      intro heq
      rw [heq] at hdot
      rw [show li.direction.dot li.direction = li.direction.length_squared
        from by simp [Vec2.dot, Vec2.length_squared], hi] at hdot
      exact hdot (by norm_num)
  · next hdet =>
    simp only [Option.some.injEq] at h
    rw [← h]
    refine Vec2.length_squared_normalize_or_zero_of_ne (hne ?_)
    intro heq
    rw [heq, det_self] at hdet
    exact hdet (by simpa using le_of_lt f32_epsilon_pos)

theorem lp3_loop_in_disc (lines : List OrcaLine) (ms : ℝ)
    (hall : ∀ l ∈ lines, l.direction.length_squared = 1) :
    ∀ (suffix : List OrcaLine) (i : ℕ) (result : Vec2) (distance : ℝ),
      (∀ l ∈ suffix, l.direction.length_squared = 1) →
      result.length_squared ≤ ms * ms →
      (lp3_loop lines ms suffix i result distance).length_squared ≤
        ms * ms := by
  intro suffix
  induction suffix with
  | nil =>
    intro i result distance _ hres
    simpa [lp3_loop] using hres
  | cons li rest ih =>
    intro i result distance hsuffix hres
    have hli : li.direction.length_squared = 1 :=
      hsuffix li (List.mem_cons_self li rest)
    have htail : ∀ l ∈ rest, l.direction.length_squared = 1 :=
      fun l hl => hsuffix l (List.mem_cons_of_mem li hl)
    simp only [lp3_loop]
    split
    · exact ih (i + 1) result distance htail hres
    · have hproj : ∀ l ∈ (lines.take i).filterMap (project_line li),
          l.direction.length_squared = 1 := by
        intro l hl
        obtain ⟨lj, hjmem, hjeq⟩ := List.mem_filterMap.1 hl
        exact project_line_unit hli
          (hall lj (List.take_subset i lines hjmem)) hjeq
      have hnew :=
        lp2_impl_in_disc ((lines.take i).filterMap (project_line li))
          (Vec2.mk (-li.direction.y) li.direction.x) ms true hproj
      refine ih (i + 1) _ _ htail ?_
      split
      · exact hnew
      · exact hres

theorem compute_avoiding_velocity_in_disc (pref : Vec2) (ms : ℝ)
    (lines : List OrcaLine)
    (hall : ∀ l ∈ lines, l.direction.length_squared = 1) :
    (compute_avoiding_velocity pref ms lines).length_squared ≤ ms * ms := by
  simp only [compute_avoiding_velocity, linear_program_2]
  split
  · unfold linear_program_3
    exact lp3_loop_in_disc lines ms hall _ _ _ 0
      (fun l hl => hall l (List.drop_subset _ lines hl))
      (lp2_impl_in_disc lines pref ms false hall)
  · exact lp2_impl_in_disc lines pref ms false hall

theorem Vec2.length_smul (r : ℝ) (v : Vec2) :
    (r • v).length = |r| * v.length := by
  rw [Vec2.length, Vec2.length_squared_smul, Real.sqrt_mul (mul_self_nonneg r),
    Real.sqrt_mul_self_eq_abs, Vec2.length]

theorem compute_orca_line_direction_unit (a b : AgentSnapshot) (T : ℝ)
    (l : OrcaLine) (h : compute_orca_line a b T = some l) :
    l.direction.length_squared = 1 := by
  simp only [compute_orca_line] at h
  set p := b.position - a.position with hp
  set rv := a.velocity - b.velocity with hrv
  set cr := a.radius + b.radius with hcr
  set w := rv - (1 / T) • p with hw
  set wl := Real.sqrt w.length_squared with hwl
  split at h
  · next hdist =>
    split at h
    · split at h
      · exact absurd h (by simp)
      · next hwe =>
        simp only [Option.some.injEq] at h
        have hwlnn : 0 ≤ wl := Real.sqrt_nonneg _
        have hwlpos : 0 < wl := lt_of_lt_of_le f32_epsilon_pos (not_lt.1 hwe)
        have hww : wl * wl = w.length_squared :=
          Real.mul_self_sqrt w.length_squared_nonneg
        rw [← h]
        simp only [Vec2.length_squared, Vec2.smul_x, Vec2.smul_y]
        have hne : wl ≠ 0 := ne_of_gt hwlpos
        rw [Vec2.length_squared] at hww
        field_simp
        linear_combination (-1 : ℝ) * hww
    · next hcut =>
      have hd0 : 0 < p.length_squared :=
        lt_of_le_of_lt (mul_self_nonneg cr) hdist
      have hdne : p.length_squared ≠ 0 := ne_of_gt hd0
      have hleg : Real.sqrt (p.length_squared - cr * cr) *
          Real.sqrt (p.length_squared - cr * cr) =
          p.length_squared - cr * cr :=
        Real.mul_self_sqrt (by linarith)
      set leg := Real.sqrt (p.length_squared - cr * cr) with hlegdef
      split at h
      · simp only [Option.some.injEq] at h
        rw [← h]
        simp only [Vec2.length_squared, Vec2.smul_x, Vec2.smul_y]
        rw [Vec2.length_squared] at hleg hdne
        field_simp
        linear_combination (p.x * p.x + p.y * p.y) * hleg
      · simp only [Option.some.injEq] at h
        rw [← h]
        simp only [Vec2.length_squared, Vec2.neg_x, Vec2.neg_y, Vec2.smul_x,
          Vec2.smul_y]
        rw [Vec2.length_squared] at hleg hdne
        field_simp
        linear_combination (p.x * p.x + p.y * p.y) * hleg
  · exact absurd h (by simp)

/-- C9: every `OrcaLine` returned by `compute_orca_line` — in all three
branches (cutoff circle, left leg, right leg) — has a direction vector of
exactly unit length when computed over the reals. -/
theorem c9_orca_line_unit_direction (a b : AgentSnapshot) (T : ℝ)
    (l : OrcaLine) (h : compute_orca_line a b T = some l) :
    l.direction.length = 1 := by
  rw [Vec2.length, compute_orca_line_direction_unit a b T l h]
  exact Real.sqrt_one

/-- C5: for every ordered pair of agents whose center distance is at most
the sum of their radii, `compute_orca_line` returns `None` — no emergency
constraint is manufactured for an overlapping pair. -/
theorem c5_overlap_returns_none (a b : AgentSnapshot) (T : ℝ)
    (h : (b.position - a.position).length ≤ a.radius + b.radius) :
    compute_orca_line a b T = none := by
  have h2 : (b.position - a.position).length_squared ≤
      (a.radius + b.radius) * (a.radius + b.radius) :=
    Vec2.length_squared_le_of_length_le h
  simp only [compute_orca_line]
  rw [if_neg (not_lt.2 h2)]

/-- C3: for every preferred velocity, nonnegative `max_speed` and list of
well-formed `OrcaLine` constraints (unit directions; feasible or not),
`compute_avoiding_velocity` returns a vector of length at most
`max_speed + 0.1`. -/
theorem c3_disc_containment (preferred : Vec2) (max_speed : ℝ)
    (lines : List OrcaLine) (hms : 0 ≤ max_speed)
    (hunit : ∀ l ∈ lines, l.direction.length_squared = 1) :
    (compute_avoiding_velocity preferred max_speed lines).length ≤
      max_speed + 1 / 10 := by
  have hsq := compute_avoiding_velocity_in_disc preferred max_speed lines hunit
  have hb := Vec2.length_le_of_sq_le hms hsq
  linarith

theorem checked_div_of_abs_gt {a b : ℝ} (h : ¬|b| ≤ f32_epsilon) :
    checked_div a b = some (a / b) := by
  rw [checked_div, if_neg]
  intro hb
  rw [hb] at h
  simp only [abs_zero] at h
  exact h (le_of_lt f32_epsilon_pos)

theorem clip_priors_checked_eq (d p : Vec2) :
    ∀ (l : List OrcaLine) (tl tr : ℝ),
      clip_priors_checked d p l tl tr = some (clip_priors d p l tl tr) := by
  intro l
  induction l with
  | nil => intro tl tr; rfl
  | cons prior rest ih =>
    intro tl tr
    simp only [clip_priors_checked, clip_priors]
    by_cases hpar : |det d prior.direction| ≤ f32_epsilon
    · rw [if_pos hpar, if_pos hpar]
      by_cases hnum : det prior.direction (p - prior.point) < 0
      · rw [if_pos hnum, if_pos hnum]
      · rw [if_neg hnum, if_neg hnum]
        exact ih tl tr
    · rw [if_neg hpar, if_neg hpar]
      simp only [checked_div_of_abs_gt hpar]
      by_cases hord : (if det d prior.direction ≥ 0 then tl
            else max tl (det prior.direction (p - prior.point) /
              det d prior.direction)) >
          (if det d prior.direction ≥ 0 then
            min tr (det prior.direction (p - prior.point) /
              det d prior.direction)
          else tr)
      · rw [if_pos hord, if_pos hord]
      · rw [if_neg hord, if_neg hord]
        exact ih _ _

theorem linear_program_1_checked_eq (lines : List OrcaLine) (i : ℕ)
    (optv : Vec2) (ms : ℝ) (dopt : Bool) :
    linear_program_1_checked lines i optv ms dopt =
      some (linear_program_1 lines i optv ms dopt) := by
  simp only [linear_program_1_checked, linear_program_1]
  split
  · rfl
  · rw [clip_priors_checked_eq]
    rcases hclip : clip_priors (lines.getD i default).direction
        (lines.getD i default).point (lines.take i) _ _ with _ | ⟨tl, tr⟩
    · rfl
    · rfl

theorem lp2_loop_checked_eq (lines : List OrcaLine) (optv : Vec2) (ms : ℝ)
    (dopt : Bool) :
    ∀ (suffix : List OrcaLine) (i : ℕ) (result : Vec2),
      lp2_loop_checked lines optv ms dopt suffix i result =
        some (lp2_loop lines optv ms dopt suffix i result) := by
  intro suffix
  induction suffix with
  | nil => intro i result; rfl
  | cons line rest ih =>
    intro i result
    simp only [lp2_loop_checked, lp2_loop]
    split
    · rw [linear_program_1_checked_eq]
      rcases hlp : linear_program_1 lines i optv ms dopt with _ | nr
      · rfl
      · exact ih (i + 1) nr
    · exact ih (i + 1) result

theorem lp2_impl_checked_eq (lines : List OrcaLine) (optv : Vec2) (ms : ℝ)
    (dopt : Bool) :
    linear_program_2_impl_checked lines optv ms dopt =
      some (linear_program_2_impl lines optv ms dopt) := by
  simp only [linear_program_2_impl_checked, linear_program_2_impl]
  by_cases hdopt : dopt = true
  · rw [if_pos hdopt, if_pos hdopt]
    exact lp2_loop_checked_eq lines optv ms dopt lines 0 _
  · rw [if_neg hdopt, if_neg hdopt]
    by_cases hgt : optv.length_squared > ms * ms
    · rw [if_pos hgt, if_pos hgt]
      have hpos : 0 < optv.length_squared :=
        lt_of_le_of_lt (mul_self_nonneg ms) hgt
      have hlen : optv.length ≠ 0 := by
        rw [Vec2.length]
        exact ne_of_gt (Real.sqrt_pos.2 hpos)
      simp only [Vec2.normalize_checked, if_neg hlen]
      exact lp2_loop_checked_eq lines optv ms dopt lines 0 _
    · rw [if_neg hgt, if_neg hgt]
      exact lp2_loop_checked_eq lines optv ms dopt lines 0 _

theorem project_line_checked_eq (li lj : OrcaLine) :
    project_line_checked li lj = some (project_line li lj) := by
  simp only [project_line_checked, project_line]
  by_cases hpar : |det li.direction lj.direction| ≤ f32_epsilon
  · rw [if_pos hpar, if_pos hpar]
    by_cases hdot : li.direction.dot lj.direction > 0
    · rw [if_pos hdot, if_pos hdot]
    · rw [if_neg hdot, if_neg hdot]
  · rw [if_neg hpar, if_neg hpar]
    simp only [checked_div_of_abs_gt hpar]

theorem project_all_checked_eq (li : OrcaLine) :
    ∀ l : List OrcaLine,
      project_all_checked li l = some (l.filterMap (project_line li)) := by
  intro l
  induction l with
  | nil => rfl
  | cons lj rest ih =>
    simp only [project_all_checked, List.filterMap_cons,
      project_line_checked_eq]
    rcases hp : project_line li lj with _ | pl
    · exact ih
    · rw [ih]
      rfl

theorem lp3_loop_checked_eq (lines : List OrcaLine) (ms : ℝ) :
    ∀ (suffix : List OrcaLine) (i : ℕ) (result : Vec2) (distance : ℝ),
      lp3_loop_checked lines ms suffix i result distance =
        some (lp3_loop lines ms suffix i result distance) := by
  intro suffix
  induction suffix with
  | nil => intro i result distance; rfl
  | cons li rest ih =>
    intro i result distance
    simp only [lp3_loop_checked, lp3_loop]
    split
    · exact ih (i + 1) result distance
    · simp only [project_all_checked_eq, lp2_impl_checked_eq]
      exact ih (i + 1) _ _

theorem compute_avoiding_velocity_checked_eq (pref : Vec2) (ms : ℝ)
    (lines : List OrcaLine) :
    compute_avoiding_velocity_checked pref ms lines =
      some (compute_avoiding_velocity pref ms lines) := by
  simp only [compute_avoiding_velocity_checked, compute_avoiding_velocity,
    linear_program_2, lp2_impl_checked_eq]
  split
  · next h =>
    rw [linear_program_3]
    exact lp3_loop_checked_eq lines ms _ _ _ 0
  · rfl

/-- C4: the LP2→LP3 pipeline is total: for every constraint list made of
well-formed `OrcaLine`s (unit directions), including directly contradictory
half-planes, `compute_avoiding_velocity` returns a vector of length at
most `max_speed`; moreover the division-instrumented variant of the
pipeline, which fails whenever a division-by-zero branch is reached,
always succeeds and agrees with it — every internal division is guarded.
In the exact-real embedding every branch is total by construction, so no
undefined value can be produced. -/
theorem c4_lp_pipeline_total (preferred : Vec2) (max_speed : ℝ)
    (lines : List OrcaLine) (hms : 0 ≤ max_speed)
    (hunit : ∀ l ∈ lines, l.direction.length_squared = 1) :
    compute_avoiding_velocity_checked preferred max_speed lines =
      some (compute_avoiding_velocity preferred max_speed lines) ∧
    (compute_avoiding_velocity preferred max_speed lines).length ≤
      max_speed :=
  ⟨compute_avoiding_velocity_checked_eq preferred max_speed lines,
    Vec2.length_le_of_sq_le hms
      (compute_avoiding_velocity_in_disc preferred max_speed lines hunit)⟩

/-- C10: with an empty constraint list, `compute_avoiding_velocity` returns
`preferred` unchanged when `|preferred| ≤ max_speed`, and otherwise returns
`preferred` rescaled to length exactly `max_speed`. -/
theorem c10_empty_lines_clamp (preferred : Vec2) (max_speed : ℝ)
    (hms : 0 ≤ max_speed) :
    (preferred.length ≤ max_speed →
      compute_avoiding_velocity preferred max_speed [] = preferred) ∧
    (max_speed < preferred.length →
      compute_avoiding_velocity preferred max_speed [] =
        (max_speed / preferred.length) • preferred ∧
      (compute_avoiding_velocity preferred max_speed []).length =
        max_speed) := by
  have hred : compute_avoiding_velocity preferred max_speed [] =
      if preferred.length_squared > max_speed * max_speed then
        max_speed • preferred.normalize
      else preferred := by
    simp [compute_avoiding_velocity, linear_program_2,
      linear_program_2_impl, lp2_loop]
  constructor
  · intro hle
    rw [hred, if_neg (not_lt.2 (Vec2.length_squared_le_of_length_le hle))]
  · intro hgt
    have hlen0 : 0 < preferred.length := lt_of_le_of_lt hms hgt
    have hlsq : max_speed * max_speed < preferred.length_squared := by
      have := preferred.mul_self_length
      nlinarith
    have heq : compute_avoiding_velocity preferred max_speed [] =
        (max_speed / preferred.length) • preferred := by
      rw [hred, if_pos hlsq, Vec2.normalize]
      refine Vec2.ext_xy ?_ ?_ <;>
        simp only [Vec2.smul_x, Vec2.smul_y] <;> ring
    refine ⟨heq, ?_⟩
    rw [heq, Vec2.length_smul, abs_of_nonneg
      (div_nonneg hms (le_of_lt hlen0)), div_mul_cancel₀ _ (ne_of_gt hlen0)]

theorem Vec2.length_zero : Vec2.zero.length = 0 := by
  have : Vec2.zero.length_squared = 0 := by
    simp [Vec2.length_squared, Vec2.zero]
  rw [Vec2.length, this, Real.sqrt_zero]

theorem Vec2.dot_le_length_mul (a b : Vec2) :
    a.dot b ≤ a.length * b.length := by
  have hcs : a.dot b * a.dot b ≤ a.length_squared * b.length_squared := by
    unfold Vec2.dot Vec2.length_squared
    nlinarith [sq_nonneg (a.x * b.y - a.y * b.x)]
  have hla := a.mul_self_length
  have hlb := b.mul_self_length
  have hla0 := a.length_nonneg
  have hlb0 := b.length_nonneg
  have h1 : a.dot b * a.dot b ≤
      (a.length * b.length) * (a.length * b.length) := by nlinarith
  calc a.dot b ≤ |a.dot b| := le_abs_self _
    _ = Real.sqrt (a.dot b * a.dot b) :=
        (Real.sqrt_mul_self_eq_abs _).symm
    _ ≤ Real.sqrt ((a.length * b.length) * (a.length * b.length)) :=
        Real.sqrt_le_sqrt h1
    _ = a.length * b.length := Real.sqrt_mul_self (mul_nonneg hla0 hlb0)

theorem Vec2.length_add_le (a b : Vec2) :
    (a + b).length ≤ a.length + b.length := by
  have hd := Vec2.dot_le_length_mul a b
  have hexp : (a + b).length_squared =
      a.length_squared + 2 * a.dot b + b.length_squared := by
    unfold Vec2.length_squared Vec2.dot
    simp only [Vec2.add_x, Vec2.add_y]
    ring
  have hla := a.mul_self_length
  have hlb := b.mul_self_length
  refine sqrt_le_of_sq_le (add_nonneg a.length_nonneg b.length_nonneg) ?_
  rw [hexp]
  nlinarith

theorem lerp_length_le {a b : Vec2} {s m : ℝ} (hs0 : 0 ≤ s) (hs1 : s ≤ 1)
    (ha : a.length ≤ m) (hb : b.length ≤ m) : (a.lerp b s).length ≤ m := by
  have hrw : a.lerp b s = (1 - s) • a + s • b := by
    refine Vec2.ext_xy ?_ ?_ <;> simp [Vec2.lerp] <;> ring
  rw [hrw]
  calc ((1 - s) • a + s • b).length
      ≤ ((1 - s) • a).length + (s • b).length := Vec2.length_add_le _ _
    _ = (1 - s) * a.length + s * b.length := by
        rw [Vec2.length_smul, Vec2.length_smul,
          abs_of_nonneg (by linarith : (0:ℝ) ≤ 1 - s), abs_of_nonneg hs0]
    _ ≤ m := by nlinarith [a.length_nonneg, b.length_nonneg]

theorem build_lines_mem (config : AvoidanceConfig)
    (snaps : List (ℕ × AgentSnapshot)) (entity : ℕ)
    (agent : AgentSnapshot) :
    ∀ (cands : List ℕ) (count : ℕ) (l : OrcaLine),
      l ∈ build_lines_loop config snaps entity agent cands count →
      ∃ nb, compute_orca_line agent nb config.time_horizon = some l := by
  intro cands
  induction cands with
  | nil => intro count l hl; simp [build_lines_loop] at hl
  | cons c rest ih =>
    intro count l hl
    simp only [build_lines_loop] at hl
    by_cases hc : c = entity
    · rw [if_pos hc] at hl
      exact ih count l hl
    · rw [if_neg hc] at hl
      by_cases hcap : count ≥ config.max_neighbors
      · rw [if_pos hcap] at hl
        simp at hl
      · rw [if_neg hcap] at hl
        rcases hfind : snaps.find? fun s => s.1 == c with _ | s
        · rw [hfind] at hl
          exact ih count l hl
        · simp only [hfind] at hl
          rcases horca : compute_orca_line agent s.2 config.time_horizon
            with _ | line
          · simp only [horca] at hl
            exact ih count l hl
          · simp only [horca] at hl
            rcases List.mem_cons.1 hl with heq | htail
            · exact ⟨s.2, heq ▸ horca⟩
            · exact ih (count + 1) l htail

theorem solve_agent_length_le (config : AvoidanceConfig)
    (hash : SpatialHash) (snaps : List (ℕ × AgentSnapshot)) (entity : ℕ)
    (agent : AgentSnapshot)
    (hs0 : 0 ≤ config.velocity_smoothing)
    (hs1 : config.velocity_smoothing ≤ 1)
    (hm : 0 ≤ agent.max_speed)
    (hv : agent.velocity.length ≤ agent.max_speed)
    (hp : agent.preferred.length ≤ agent.max_speed) :
    (solve_agent config hash snaps entity agent).length ≤
      agent.max_speed := by
  simp only [solve_agent]
  split
  · rw [Vec2.length_zero]
    exact hm
  · split
    · exact hp
    · refine lerp_length_le hs0 hs1 hv ?_
      refine Vec2.length_le_of_sq_le hm ?_
      refine compute_avoiding_velocity_in_disc _ _ _ ?_
      intro l hl
      obtain ⟨nb, hnb⟩ := build_lines_mem config snaps entity agent _ 0 l hl
      exact compute_orca_line_direction_unit agent nb config.time_horizon l hnb

theorem forall2_map_self {α β : Type} (f : α → β) (R : β → α → Prop) :
    ∀ (l : List α), (∀ x ∈ l, R (f x) x) → List.Forall₂ R (l.map f) l := by
  intro l
  induction l with
  | nil => intro _; simp
  | cons a t ih =>
    intro h
    simp only [List.map_cons]
    exact List.Forall₂.cons (h a (List.mem_cons_self a t))
      (ih fun x hx => h x (List.mem_cons_of_mem a hx))

/-- C1 (amended): an agent whose preferred velocity has near-zero length
(`length_squared < f32::EPSILON`) is short-circuited by the orchestrator:
its solved velocity is zero and no neighbor query, constraint construction
or LP solve happens for it. -/
theorem c1_amended_zero_preferred_short_circuits (config : AvoidanceConfig)
    (hash : SpatialHash) (snaps : List (ℕ × AgentSnapshot)) (entity : ℕ)
    (agent : AgentSnapshot)
    (h : agent.preferred.length_squared < f32_epsilon) :
    solve_agent config hash snaps entity agent = Vec2.zero := by
  simp only [solve_agent]
  rw [if_pos h]

/-- C6 (amended): for an agent that is not short-circuited
(`length_squared preferred ≥ f32::EPSILON`), if zero ORCA constraint lines
were built during its per-tick solve, the solved velocity equals exactly
its preferred velocity — no clamping and no smoothing on this path. -/
theorem c6_amended_no_neighbor_identity (config : AvoidanceConfig)
    (hash : SpatialHash) (snaps : List (ℕ × AgentSnapshot)) (entity : ℕ)
    (agent : AgentSnapshot)
    (hpref : f32_epsilon ≤ agent.preferred.length_squared)
    (hempty : build_lines_loop config snaps entity agent
      (hash.query_neighbors agent.position config.neighbor_distance) 0 =
      []) :
    solve_agent config hash snaps entity agent = agent.preferred := by
  simp only [solve_agent]
  rw [if_neg (not_lt.2 hpref), hempty]
  simp

/-- C2 (amended): on every tick the orchestrator emits exactly one velocity
per snapshotted agent, aligned elementwise with the snapshot list and
carrying that agent's entity id; and whenever every agent's inputs are
valid (previous velocity and preferred velocity within its `max_speed`
disc, nonnegative `max_speed`, smoothing factor in `[0,1]`), every output
velocity satisfies `|v| ≤ max_speed + 0.1` for that agent's `max_speed`. -/
theorem c2_amended_output_contract (config : AvoidanceConfig)
    (hash : SpatialHash) (snaps : List (ℕ × AgentSnapshot))
    (hs0 : 0 ≤ config.velocity_smoothing)
    (hs1 : config.velocity_smoothing ≤ 1)
    (hvalid : ∀ p ∈ snaps, 0 ≤ p.2.max_speed ∧
      p.2.velocity.length ≤ p.2.max_speed ∧
      p.2.preferred.length ≤ p.2.max_speed) :
    List.Forall₂
      (fun r s => r.1 = s.1 ∧ r.2.length ≤ s.2.max_speed + 1 / 10)
      (compute_avoidance config hash snaps) snaps := by
  unfold compute_avoidance
  apply forall2_map_self
  intro p hp
  obtain ⟨hm, hv, hpr⟩ := hvalid p hp
  refine ⟨rfl, ?_⟩
  have := solve_agent_length_le config hash snaps p.1 p.2 hs0 hs1 hm hv hpr
  linarith

theorem build_lines_take_characterization (config : AvoidanceConfig)
    (snaps : List (ℕ × AgentSnapshot)) (entity : ℕ)
    (agent : AgentSnapshot) :
    ∀ (cands : List ℕ) (count : ℕ),
      build_lines_loop config snaps entity agent cands count =
        List.take (config.max_neighbors - count)
          ((cands.filter fun c => !(c == entity)).filterMap fun c =>
            (snaps.find? fun s => s.1 == c).bind fun s =>
              compute_orca_line agent s.2 config.time_horizon) := by
  intro cands
  induction cands with
  | nil => intro count; simp [build_lines_loop]
  | cons c rest ih =>
    intro count
    simp only [build_lines_loop]
    by_cases hc : c = entity
    · rw [if_pos hc]
      have hfilter : (c :: rest).filter (fun c => !(c == entity)) =
          rest.filter fun c => !(c == entity) := by
        simp [List.filter_cons, hc]
      rw [hfilter]
      exact ih count
    · rw [if_neg hc]
      have hfilter : (c :: rest).filter (fun c => !(c == entity)) =
          c :: rest.filter fun c => !(c == entity) := by
        simp [List.filter_cons, hc]
      rw [hfilter]
      by_cases hcap : count ≥ config.max_neighbors
      · rw [if_pos hcap]
        rw [Nat.sub_eq_zero_of_le hcap, List.take_zero]
      · rw [if_neg hcap]
        rcases hfind : snaps.find? fun s => s.1 == c with _ | s
        · rw [hfind]
          simp only [List.filterMap_cons, hfind, Option.none_bind]
          exact ih count
        · simp only [hfind]
          rcases horca : compute_orca_line agent s.2 config.time_horizon
            with _ | line
          · simp only [horca]
            simp only [List.filterMap_cons, hfind, Option.some_bind, horca]
            exact ih count
          · simp only [horca]
            simp only [List.filterMap_cons, hfind, Option.some_bind, horca]
            have hstep : config.max_neighbors - count =
                (config.max_neighbors - (count + 1)) + 1 := by omega
            rw [hstep, List.take_succ_cons, ih (count + 1)]

/-- C8: for every agent, the constraint list built by the candidate loop is
exactly the first `max_neighbors` successful `compute_orca_line` results
taken in candidate iteration order (no nearest-first sort), with the agent
itself excluded and `None` pairs not counting toward the cap; in
particular its length never exceeds `max_neighbors`. -/
theorem c8_neighbor_cap (config : AvoidanceConfig)
    (snaps : List (ℕ × AgentSnapshot)) (entity : ℕ) (agent : AgentSnapshot)
    (cands : List ℕ) :
    build_lines_loop config snaps entity agent cands 0 =
      List.take config.max_neighbors
        ((cands.filter fun c => !(c == entity)).filterMap fun c =>
          (snaps.find? fun s => s.1 == c).bind fun s =>
            compute_orca_line agent s.2 config.time_horizon) ∧
    (build_lines_loop config snaps entity agent cands 0).length ≤
      config.max_neighbors := by
  have h := build_lines_take_characterization config snaps entity agent
    cands 0
  rw [Nat.sub_zero] at h
  refine ⟨h, ?_⟩
  rw [h]
  exact le_trans (List.length_take_le _ _) (le_refl _)

theorem insert_cell_size (h : SpatialHash) (e : ℕ) (p : Vec2) :
    (h.insert e p).cell_size = h.cell_size := rfl

theorem foldl_insert_cell_size (l : List (ℕ × Vec2)) :
    ∀ (acc : SpatialHash),
      (l.foldl (fun a u => a.insert u.1 u.2) acc).cell_size =
        acc.cell_size := by
  induction l with
  | nil => intro acc; rfl
  | cons u rest ih => intro acc; exact ih (acc.insert u.1 u.2)

theorem rebuild_cell_size (h : SpatialHash) (units : List (ℕ × Vec2)) :
    (rebuild_spatial_hash h units).cell_size = h.cell_size :=
  foldl_insert_cell_size units h.clear

theorem cell_coords_eq_of_cell_size {h1 h2 : SpatialHash}
    (hcs : h1.cell_size = h2.cell_size) (p : Vec2) :
    h1.cell_coords p = h2.cell_coords p := by
  unfold SpatialHash.cell_coords
  rw [hcs]

theorem insert_cells_mono (h : SpatialHash) (e0 : ℕ) (p0 : Vec2)
    (c : ℤ × ℤ) (e : ℕ) (hmem : e ∈ h.cells c) :
    e ∈ (h.insert e0 p0).cells c := by
  simp only [SpatialHash.insert]
  split
  · exact List.mem_append_left _ hmem
  · exact hmem

theorem foldl_insert_cells_mono (l : List (ℕ × Vec2)) :
    ∀ (acc : SpatialHash) (c : ℤ × ℤ) (e : ℕ),
      e ∈ acc.cells c →
      e ∈ (l.foldl (fun a u => a.insert u.1 u.2) acc).cells c := by
  induction l with
  | nil => intro acc c e hmem; exact hmem
  | cons u rest ih =>
    intro acc c e hmem
    exact ih (acc.insert u.1 u.2) c e (insert_cells_mono acc u.1 u.2 c e hmem)

theorem mem_insert_self (h : SpatialHash) (e : ℕ) (p : Vec2) :
    e ∈ (h.insert e p).cells (h.cell_coords p) := by
  simp only [SpatialHash.insert, if_pos]
  exact List.mem_append_right _ (List.mem_singleton.2 rfl)

theorem mem_foldl_insert (l : List (ℕ × Vec2)) :
    ∀ (acc : SpatialHash) (e : ℕ) (p : Vec2),
      (e, p) ∈ l →
      e ∈ (l.foldl (fun a u => a.insert u.1 u.2) acc).cells
        (acc.cell_coords p) := by
  induction l with
  | nil => intro acc e p hmem; simp at hmem
  | cons u rest ih =>
    intro acc e p hmem
    rcases List.mem_cons.1 hmem with heq | htail
    · subst heq
      exact foldl_insert_cells_mono rest (acc.insert e p) _ e
        (mem_insert_self acc e p)
    · exact ih (acc.insert u.1 u.2) e p htail

theorem mem_int_range {lo hi x : ℤ} :
    x ∈ int_range lo hi ↔ lo ≤ x ∧ x ≤ hi := by
  simp only [int_range, List.mem_map, List.mem_range]
  constructor
  · rintro ⟨k, hk, hkx⟩
    omega
  · rintro ⟨h1, h2⟩
    exact ⟨(x - lo).toNat, by omega, by omega⟩

theorem mem_query_neighbors (h : SpatialHash) (pos : Vec2) (r : ℝ) (e : ℕ)
    (cx cy : ℤ) (hcmem : e ∈ h.cells (cx, cy))
    (hx1 : (h.cell_coords (pos - Vec2.mk r r)).1 ≤ cx)
    (hx2 : cx ≤ (h.cell_coords (pos + Vec2.mk r r)).1)
    (hy1 : (h.cell_coords (pos - Vec2.mk r r)).2 ≤ cy)
    (hy2 : cy ≤ (h.cell_coords (pos + Vec2.mk r r)).2) :
    e ∈ h.query_neighbors pos r := by
  simp only [SpatialHash.query_neighbors, List.mem_flatMap]
  exact ⟨cx, mem_int_range.2 ⟨hx1, hx2⟩, cy, mem_int_range.2 ⟨hy1, hy2⟩,
    hcmem⟩

theorem Vec2.abs_x_le_length (v : Vec2) : |v.x| ≤ v.length := by
  rw [← Real.sqrt_mul_self_eq_abs, Vec2.length]
  refine Real.sqrt_le_sqrt ?_
  have := mul_self_nonneg v.y
  unfold Vec2.length_squared
  linarith

theorem Vec2.abs_y_le_length (v : Vec2) : |v.y| ≤ v.length := by
  rw [← Real.sqrt_mul_self_eq_abs, Vec2.length]
  refine Real.sqrt_le_sqrt ?_
  have := mul_self_nonneg v.x
  unfold Vec2.length_squared
  linarith

/-- C7: after `clear()` and any sequence of `insert` calls, a query returns
a superset of the inserted ids whose true distance from the query point is
at most the radius (no false negatives); moreover any inserted id whose
position lies in the axis-aligned query square `[q - r, q + r]` — in
particular one exactly on a cell boundary reached from either adjacent
cell — is returned. -/
theorem c7_spatial_hash_superset (h0 : SpatialHash)
    (units : List (ℕ × Vec2)) (q : Vec2) (r : ℝ)
    (hcs : 0 < h0.cell_size) :
    (∀ e p, (e, p) ∈ units → (p - q).length ≤ r →
      e ∈ (rebuild_spatial_hash h0 units).query_neighbors q r) ∧
    (∀ e p, (e, p) ∈ units → |p.x - q.x| ≤ r → |p.y - q.y| ≤ r →
      e ∈ (rebuild_spatial_hash h0 units).query_neighbors q r) := by
  have hsize : (rebuild_spatial_hash h0 units).cell_size = h0.cell_size :=
    rebuild_cell_size h0 units
  have hsquare : ∀ e p, (e, p) ∈ units → |p.x - q.x| ≤ r →
      |p.y - q.y| ≤ r →
      e ∈ (rebuild_spatial_hash h0 units).query_neighbors q r := by
    intro e p hmem hx hy
    obtain ⟨hx1, hx2⟩ := abs_le.1 hx
    obtain ⟨hy1, hy2⟩ := abs_le.1 hy
    have hbucket : e ∈ (rebuild_spatial_hash h0 units).cells
        (h0.cell_coords p) := mem_foldl_insert units h0.clear e p hmem
    have hflo : ∀ u v : ℝ, u ≤ v →
        ⌊u / h0.cell_size⌋ ≤ ⌊v / h0.cell_size⌋ := by
      intro u v huv
      exact Int.floor_le_floor (by gcongr)
    refine mem_query_neighbors _ q r e (h0.cell_coords p).1
      (h0.cell_coords p).2 hbucket ?_ ?_ ?_ ?_ <;>
      rw [cell_coords_eq_of_cell_size hsize] <;>
      simp only [SpatialHash.cell_coords, Vec2.sub_x, Vec2.sub_y,
        Vec2.add_x, Vec2.add_y] <;>
      apply hflo <;> linarith
  refine ⟨?_, hsquare⟩
  intro e p hmem hdist
  have hx : |p.x - q.x| ≤ r := by
    have := (p - q).abs_x_le_length
    simp only [Vec2.sub_x] at this
    linarith
  have hy : |p.y - q.y| ≤ r := by
    have := (p - q).abs_y_le_length
    simp only [Vec2.sub_y] at this
    linarith
  exact hsquare e p hmem hx hy

theorem flatMap_nil_fn {α β : Type} :
    ∀ l : List α, (l.flatMap fun _ => ([] : List β)) = [] := by
  intro l
  induction l with
  | nil => rfl
  | cons a t ih => simp [List.flatMap_cons, ih]

theorem query_new_empty (c : ℝ) (pos : Vec2) (r : ℝ) :
    (SpatialHash.new c).query_neighbors pos r = [] := by
  simp only [SpatialHash.query_neighbors, SpatialHash.new]
  rw [show (fun cx =>
      (int_range (((SpatialHash.mk c fun _ => []).cell_coords
        (pos - Vec2.mk r r)).2)
        (((SpatialHash.mk c fun _ => []).cell_coords
        (pos + Vec2.mk r r)).2)).flatMap
        fun cy => ([] : List ℕ)) = fun cx => ([] : List ℕ)
    from funext fun cx => flatMap_nil_fn _]
  exact flatMap_nil_fn _

theorem length_mk_x (x : ℝ) (hx : 0 ≤ x) : (Vec2.mk x 0).length = x := by
  rw [Vec2.length]
  exact sqrt_eq_of_sq hx (by norm_num [Vec2.length_squared])

theorem query_hash_empty (pos : Vec2) (r : ℝ) :
    hash_empty.query_neighbors pos r = [] :=
  query_new_empty 150 pos r

/-- C6 (counterexample): the agent with preferred velocity `(10⁻⁴, 0)` has
zero constraint lines built (no neighbors at all), yet its solved velocity
is the zero vector, not its preferred velocity — the short-circuit at
`length_squared < f32::EPSILON` fires before the no-neighbor identity. -/
theorem c6_counterexample_tiny_preferred :
    solve_agent config_w hash_empty [(0, agent_tiny)] 0 agent_tiny =
      Vec2.zero ∧
    agent_tiny.preferred ≠ Vec2.zero ∧
    build_lines_loop config_w [(0, agent_tiny)] 0 agent_tiny
      (hash_empty.query_neighbors agent_tiny.position
        config_w.neighbor_distance) 0 = [] := by
  refine ⟨?_, ?_, ?_⟩
  · simp only [solve_agent]
    rw [if_pos (by norm_num [agent_tiny, Vec2.length_squared, f32_epsilon])]
  · intro h
    have := congrArg Vec2.x h
    simp [agent_tiny, Vec2.zero] at this
  · rw [query_hash_empty]
    simp [build_lines_loop]

theorem solve_agent_overspeed_eval :
    solve_agent config_w hash_empty [(0, agent_overspeed)] 0
      agent_overspeed = Vec2.mk 100 0 := by
  simp only [solve_agent]
  rw [if_neg (by norm_num [agent_overspeed, Vec2.length_squared,
    f32_epsilon])]
  rw [query_hash_empty]
  simp [build_lines_loop, agent_overspeed]

/-- C2 (counterexample): a lone agent with preferred velocity `(100, 0)`
and `max_speed = 50` receives the velocity `(100, 0)` on the
zero-constraint path — the output contract `|v| ≤ max_speed + ε` is
violated because this path returns `preferred` unclamped. -/
theorem c2_counterexample_overspeed_preferred_passthrough :
    compute_avoidance config_w hash_empty [(0, agent_overspeed)] =
      [(0, Vec2.mk 100 0)] ∧
    ¬((Vec2.mk (100:ℝ) 0).length ≤ agent_overspeed.max_speed + 1 / 10) := by
  constructor
  · simp only [compute_avoidance, List.map_cons, List.map_nil]
    rw [solve_agent_overspeed_eval]
  · rw [length_mk_x 100 (by norm_num)]
    norm_num [agent_overspeed]

theorem orca_line_eval :
    compute_orca_line agent_stationary agent_oncoming 3 = some line_ab := by
  have h256 : Real.sqrt (256 : ℝ) = 16 :=
    sqrt_eq_of_sq (by norm_num) (by norm_num)
  norm_num [compute_orca_line, agent_stationary, agent_oncoming, line_ab,
    Vec2.length_squared, Vec2.dot, det, h256]
  constructor
  · refine Vec2.ext_xy ?_ ?_ <;> norm_num
  · refine Vec2.ext_xy ?_ ?_ <;> norm_num

theorem cav_eval :
    compute_avoiding_velocity Vec2.zero 50 [line_ab] = Vec2.mk (-9) (-12)
    := by
  have hnn : (0:ℝ) ≤ Real.sqrt 2275 := Real.sqrt_nonneg _
  norm_num [compute_avoiding_velocity, linear_program_2,
    linear_program_2_impl, lp2_loop, linear_program_1, clip_priors,
    line_ab, Vec2.length_squared, Vec2.dot, det, Vec2.zero,
    max_eq_left, min_eq_left]
  refine Vec2.ext_xy ?_ ?_ <;> norm_num

/-- C1 (counterexample): the stationary agent with zero preferred velocity
is approached head-on by `agent_oncoming`; the orchestrator writes the
zero vector for it without any constraint computation, even though the
ORCA constraint for the pair exists and the LP solve on it would yield the
non-zero displacing velocity `(-9, -12)`. -/
theorem c1_counterexample_stationary_agent_not_displaced :
    (compute_avoidance config_w hash_w
      [(0, agent_stationary), (1, agent_oncoming)]).getD 0 (0, Vec2.zero) =
      (0, Vec2.zero) ∧
    compute_orca_line agent_stationary agent_oncoming
      config_w.time_horizon = some line_ab ∧
    compute_avoiding_velocity agent_stationary.preferred
      agent_stationary.max_speed [line_ab] = Vec2.mk (-9) (-12) ∧
    Vec2.mk (-9) (-12) ≠ Vec2.zero := by
  refine ⟨?_, orca_line_eval, cav_eval, ?_⟩
  · simp only [compute_avoidance, List.map_cons, List.map_nil,
      List.getD_cons_zero]
    have hz : solve_agent config_w hash_w
        [(0, agent_stationary), (1, agent_oncoming)] 0 agent_stationary =
        Vec2.zero := by
      simp only [solve_agent]
      rw [if_pos (by norm_num [agent_stationary, Vec2.length_squared,
        f32_epsilon])]
    rw [hz]
  · intro h
    have := congrArg Vec2.x h
    simp [Vec2.zero] at this

theorem c1_amended_witness :
    solve_agent config_w hash_w [(0, agent_stationary), (1, agent_oncoming)]
      0 agent_stationary = Vec2.zero :=
  c1_amended_zero_preferred_short_circuits config_w hash_w
    [(0, agent_stationary), (1, agent_oncoming)] 0 agent_stationary
    (by norm_num [agent_stationary, Vec2.length_squared, f32_epsilon])

theorem c2_amended_witness :
    List.Forall₂
      (fun r s => r.1 = s.1 ∧ r.2.length ≤ s.2.max_speed + 1 / 10)
      (compute_avoidance config_w hash_empty [(0, agent_w)])
      [(0, agent_w)] := by
  refine c2_amended_output_contract config_w hash_empty [(0, agent_w)]
    (by norm_num [config_w]) (by norm_num [config_w]) ?_
  intro p hp
  simp only [List.mem_singleton] at hp
  subst hp
  refine ⟨by norm_num [agent_w], ?_, ?_⟩ <;>
    · show (Vec2.mk 50 0).length ≤ (50:ℝ)
      rw [length_mk_x 50 (by norm_num)]

theorem c3_disc_containment_witness :
    (compute_avoiding_velocity (Vec2.mk 50 0) 50
      [line_block_right]).length ≤ 50 + 1 / 10 := by
  refine c3_disc_containment (Vec2.mk 50 0) 50 [line_block_right]
    (by norm_num) ?_
  intro l hl
  simp only [List.mem_singleton] at hl
  subst hl
  norm_num [line_block_right, Vec2.length_squared]

theorem c4_lp_pipeline_total_witness :
    compute_avoiding_velocity_checked Vec2.zero 50 lines_contradictory =
      some (compute_avoiding_velocity Vec2.zero 50 lines_contradictory) ∧
    (compute_avoiding_velocity Vec2.zero 50 lines_contradictory).length ≤
      50 := by
  refine c4_lp_pipeline_total Vec2.zero 50 lines_contradictory
    (by norm_num) ?_
  intro l hl
  simp only [lines_contradictory, List.mem_cons, List.mem_singleton,
    List.not_mem_nil, or_false] at hl
  rcases hl with h | h <;> subst h <;> norm_num [Vec2.length_squared]

theorem c5_overlap_returns_none_witness :
    compute_orca_line agent_stationary agent_overlap 3 = none := by
  refine c5_overlap_returns_none agent_stationary agent_overlap 3 ?_
  have hsub : agent_overlap.position - agent_stationary.position =
      Vec2.mk 5 0 :=
    Vec2.ext_xy (by norm_num [agent_overlap, agent_stationary])
      (by norm_num [agent_overlap, agent_stationary])
  rw [hsub, length_mk_x 5 (by norm_num)]
  norm_num [agent_overlap, agent_stationary]

theorem c6_amended_witness :
    solve_agent config_w hash_empty [(0, agent_w)] 0 agent_w =
      agent_w.preferred := by
  refine c6_amended_no_neighbor_identity config_w hash_empty [(0, agent_w)]
    0 agent_w
    (by norm_num [agent_w, Vec2.length_squared, f32_epsilon]) ?_
  rw [query_hash_empty]
  simp [build_lines_loop]

theorem c7_spatial_hash_superset_witness :
    1 ∈ (rebuild_spatial_hash (SpatialHash.new 50)
      [(1, Vec2.mk 50 0)]).query_neighbors (Vec2.mk 49 0) 5 := by
  refine (c7_spatial_hash_superset (SpatialHash.new 50) [(1, Vec2.mk 50 0)]
    (Vec2.mk 49 0) 5 (by norm_num [SpatialHash.new])).2 1 (Vec2.mk 50 0)
    (by simp) ?_ ?_ <;> norm_num [abs_le]

theorem c9_orca_line_unit_direction_witness :
    line_ab.direction.length = 1 :=
  c9_orca_line_unit_direction agent_stationary agent_oncoming 3 line_ab
    orca_line_eval

theorem c10_empty_lines_clamp_witness :
    compute_avoiding_velocity (Vec2.mk 100 0) 50 [] =
      (50 / (Vec2.mk (100:ℝ) 0).length) • Vec2.mk 100 0 ∧
    (compute_avoiding_velocity (Vec2.mk 100 0) 50 []).length = 50 := by
  refine (c10_empty_lines_clamp (Vec2.mk 100 0) 50 (by norm_num)).2 ?_
  rw [length_mk_x 100 (by norm_num)]
  norm_num
